import Mathlib

/-!
Shallow embedding of the dist-git package importer
(dist-git/dist_git/package_import.py) and proofs about its
branch-synchronization, provisioning, upload and orchestration logic.

External processes (git, the provisioning scripts) are modelled by
environments of exit codes and outputs; each embedded function returns the
trace of external actions it performed together with its outcome, so that
control-flow properties (which commands ran, in which order, what was
caught and what propagated) are provable.
-/

namespace PackageImport

/-- Environment of exit codes / outputs for the git commands issued by
sync_branch: the exit code of a fast-forward-only merge per candidate
branch, of read-tree and show per branch, the author date printed by
show, the exit code of the staged-diff check and of the final commit. -/
structure SyncEnv where
  mergeExit : String → Nat
  readTreeExit : String → Nat
  showExit : String → Nat
  authorDate : String → String
  diffCachedExit : Nat
  commitExit : String → String → Nat

/-- One external git command issued by sync_branch. -/
inductive GitAct where
  | merge (branch : String)
  | readTree (branch : String)
  | showDate (branch : String)
  | diffCached
  | commitCmd (message : String) (date : String)
deriving DecidableEq, Repr

/-- Exceptions sync_branch can raise: a CalledProcessError from
subprocess.check_call / check_output, or StopIteration from
next(iter({})) when the mapping is empty. -/
inductive SyncErr where
  | calledProcessError (exit : Nat)
  | stopIteration
deriving DecidableEq, Repr

/-- The fast-forward loop of sync_branch (lines 71-76): try
`git merge branch --ff-only` for each key of branch_commits in order,
returning the trace of merges tried and whether one succeeded. -/
def syncMerges (env : SyncEnv) : List String → List GitAct × Bool
  | [] => ([], false)
  | b :: rest =>
    if env.mergeExit b = 0 then ([GitAct.merge b], true)
    else
      let r := syncMerges env rest
      (GitAct.merge b :: r.1, r.2)

/-- Embedding of sync_branch (lines 63-91): try fast-forward merges in
insertion order; on first success return. Otherwise reset to the first
key via read-tree, read the author date of that branch, and commit with the
given message and that date iff the staged diff is non-empty. -/
def sync_branch (env : SyncEnv) (new_branch : String) (branch_commits : List String)
    (message : String) : List GitAct × Except SyncErr Unit :=
  let m := syncMerges env branch_commits
  if m.2 then (m.1, Except.ok ())
  else
    match branch_commits with
    | [] => (m.1, Except.error SyncErr.stopIteration)
    | branch :: _ =>
      let t1 := m.1 ++ [GitAct.readTree branch]
      if env.readTreeExit branch ≠ 0 then
        (t1, Except.error (SyncErr.calledProcessError (env.readTreeExit branch)))
      else
        let t2 := t1 ++ [GitAct.showDate branch]
        if env.showExit branch ≠ 0 then
          (t2, Except.error (SyncErr.calledProcessError (env.showExit branch)))
        else
          let date := env.authorDate branch
          let t3 := t2 ++ [GitAct.diffCached]
          if env.diffCachedExit ≠ 0 then
            let t4 := t3 ++ [GitAct.commitCmd message date]
            if env.commitExit message date ≠ 0 then
              (t4, Except.error (SyncErr.calledProcessError (env.commitExit message date)))
            else (t4, Except.ok ())
          else (t3, Except.ok ())

theorem syncMerges_of_exists (env : SyncEnv) :
    ∀ keys : List String, (∃ b ∈ keys, env.mergeExit b = 0) →
    ∃ b, keys.find? (fun c => env.mergeExit c == 0) = some b ∧
      syncMerges env keys =
        ((keys.takeWhile (fun c => env.mergeExit c != 0)).map GitAct.merge
          ++ [GitAct.merge b], true) := by
  intro keys
  induction keys with
  | nil => intro h; simp at h
  | cons b rest ih =>
    intro h
    by_cases hb : env.mergeExit b = 0
    · refine ⟨b, ?_, ?_⟩
      · simp [List.find?, hb]
      · simp [syncMerges, hb, List.takeWhile]
    · obtain ⟨c, hc, hc0⟩ := h
      rcases List.mem_cons.mp hc with rfl | hcr
      · exact absurd hc0 hb
      · obtain ⟨d, hfind, heq⟩ := ih ⟨c, hcr, hc0⟩
        have hb1 : (env.mergeExit b == 0) = false := by simp [hb]
        have hb2 : (env.mergeExit b != 0) = true := by simp [hb]
        refine ⟨d, ?_, ?_⟩
        · simp [List.find?, hb1, hfind]
        · simp [syncMerges, hb, heq, List.takeWhile, hb2]

theorem syncMerges_of_none (env : SyncEnv) :
    ∀ keys : List String, (∀ b ∈ keys, env.mergeExit b ≠ 0) →
    syncMerges env keys = (keys.map GitAct.merge, false) := by
  intro keys
  induction keys with
  | nil => intro _; rfl
  | cons b rest ih =>
    intro h
    have hb := h b (List.mem_cons_self b rest)
    simp [syncMerges, hb, ih (fun c hc => h c (List.mem_cons_of_mem b hc))]

/-- C1: with a non-empty branch_commits mapping containing at least one
candidate whose fast-forward-only merge succeeds (exit 0), sync_branch
tries candidates in insertion order, stops at the first success, and its
whole trace consists of merge attempts only: the reset-and-recommit
fallback (read-tree / show / diff / commit) is never invoked. -/
theorem sync_branch_first_ff_wins (env : SyncEnv) (nb : String) (keys : List String)
    (msg : String) (h : ∃ b ∈ keys, env.mergeExit b = 0) :
    ∃ b, keys.find? (fun c => env.mergeExit c == 0) = some b ∧
      sync_branch env nb keys msg =
        ((keys.takeWhile (fun c => env.mergeExit c != 0)).map GitAct.merge
          ++ [GitAct.merge b], Except.ok ()) ∧
      ∀ a ∈ (sync_branch env nb keys msg).1, ∃ c, a = GitAct.merge c := by
  obtain ⟨b, hfind, heq⟩ := syncMerges_of_exists env keys h
  refine ⟨b, hfind, ?_, ?_⟩
  · simp [sync_branch, heq]
  · intro a ha
    simp [sync_branch, heq] at ha
    rcases ha with ⟨c, _, rfl⟩ | rfl
    · exact ⟨c, rfl⟩
    · exact ⟨b, rfl⟩

theorem sync_branch_first_ff_wins_witness :
    ∃ b, (["f40", "f41"].find? (fun c =>
        (fun x => if x = "f41" then 0 else 1) c == 0)) = some b ∧
      sync_branch ⟨fun x => if x = "f41" then 0 else 1, fun _ => 0, fun _ => 0,
          fun _ => "d", 0, fun _ _ => 0⟩ "rawhide" ["f40", "f41"] "m" =
        ((["f40", "f41"].takeWhile (fun c =>
            (fun x => if x = "f41" then 0 else 1) c != 0)).map GitAct.merge
          ++ [GitAct.merge b], Except.ok ()) ∧
      ∀ a ∈ (sync_branch ⟨fun x => if x = "f41" then 0 else 1, fun _ => 0, fun _ => 0,
          fun _ => "d", 0, fun _ _ => 0⟩ "rawhide" ["f40", "f41"] "m").1,
        ∃ c, a = GitAct.merge c :=
  sync_branch_first_ff_wins
    ⟨fun x => if x = "f41" then 0 else 1, fun _ => 0, fun _ => 0,
      fun _ => "d", 0, fun _ _ => 0⟩ "rawhide" ["f40", "f41"] "m"
    ⟨"f41", by decide, by decide⟩

/-- C2: when no candidate branch fast-forwards, sync_branch resets the
working tree and index (git read-tree -m -u) to the first key of
branch_commits in iteration order, reads the original author
date, and creates a commit with the given message and that date iff the
staged diff against HEAD is non-empty (diff --cached exits non-zero);
with nothing staged no commit command is issued, and in both cases the
call succeeds. -/
theorem sync_branch_fallback (env : SyncEnv) (nb : String) (b0 : String)
    (rest : List String) (msg : String)
    (hall : ∀ b ∈ b0 :: rest, env.mergeExit b ≠ 0)
    (hrt : env.readTreeExit b0 = 0)
    (hsh : env.showExit b0 = 0)
    (hcommit : env.diffCachedExit ≠ 0 → env.commitExit msg (env.authorDate b0) = 0) :
    sync_branch env nb (b0 :: rest) msg =
      ((b0 :: rest).map GitAct.merge
        ++ [GitAct.readTree b0, GitAct.showDate b0, GitAct.diffCached]
        ++ (if env.diffCachedExit ≠ 0 then [GitAct.commitCmd msg (env.authorDate b0)] else []),
        Except.ok ()) := by
  have hm := syncMerges_of_none env (b0 :: rest) hall
  by_cases hd : env.diffCachedExit ≠ 0
  · simp [sync_branch, hm, hrt, hsh, hd, hcommit hd]
  · simp [sync_branch, hm, hrt, hsh, hd]

theorem sync_branch_fallback_witness :
    sync_branch ⟨fun _ => 1, fun _ => 0, fun _ => 0, fun _ => "2015-01-01", 1,
        fun _ _ => 0⟩ "rawhide" ("f40" :: ["f41"]) "m" =
      (("f40" :: ["f41"]).map GitAct.merge
        ++ [GitAct.readTree "f40", GitAct.showDate "f40", GitAct.diffCached]
        ++ (if (1 : Nat) ≠ 0 then [GitAct.commitCmd "m" "2015-01-01"] else []),
        Except.ok ()) :=
  sync_branch_fallback
    ⟨fun _ => 1, fun _ => 0, fun _ => 0, fun _ => "2015-01-01", 1, fun _ _ => 0⟩
    "rawhide" "f40" ["f41"] "m" (by decide) rfl rfl (fun _ => rfl)

/-! The upload shim my_upload_fabric / my_upload (lines 33-60).

Filesystem paths are lists of components; the filesystem is a set of
existing files and a set of existing directory paths; the process
group id is part of the state. -/

abbrev Path := List String

/-- Filesystem state: the existing regular files and directories. -/
structure FS where
  files : List Path
  dirs : List Path
deriving DecidableEq, Repr

/-- Process state seen by the upload shim: the filesystem and the
current group id of the process. -/
structure Sys where
  fs : FS
  gid : Nat
deriving DecidableEq, Repr

/-- The configuration field the shim reads (opts.lookaside_location). -/
structure UploadOpts where
  lookaside_location : String

/-- Environment for my_upload: the gid of the apache group, and whether
os.makedirs raises OSError for a given directory (the code catches and
logs that error). -/
structure UploadEnv where
  apacheGid : Nat
  makedirsRaises : Path → Bool

/-- Exception escaping my_upload: shutil.copyfile raising because the
destination directory or the source file does not exist. -/
inductive UpErr where
  | copyError
deriving DecidableEq, Repr

/-- Embedding of os.path.basename for component paths. -/
def basename (p : Path) : String := p.getLastD ""

/-- Embedding of the my_upload closure produced by my_upload_fabric
(lines 34-58): build the content-addressed destination, switch to the
apache gid, create the destination directory if missing (OSError caught
and logged), copy the file only when the destination does not exist,
then restore the original gid.  shutil.copyfile raises when the
destination directory or the source is missing, and on that path the
restoring setgid on line 58 is never reached. -/
def my_upload (opts : UploadOpts) (env : UploadEnv) (s : Sys) (repo_dir : Path)
    (reponame : String) (abs_filename : Path) (filehash : String) :
    Sys × Except UpErr Unit :=
  let filename := basename abs_filename
  let destination : Path :=
    [opts.lookaside_location, reponame, filename, filehash, filename]
  let current_gid := s.gid
  let s1 : Sys := { s with gid := env.apacheGid }
  let ddir : Path := [opts.lookaside_location, reponame, filename, filehash]
  let s2 : Sys :=
    if ddir ∈ s1.fs.dirs then s1
    else if env.makedirsRaises ddir then s1
    else ⟨⟨s1.fs.files, ddir :: s1.fs.dirs⟩, s1.gid⟩
  if destination ∈ s2.fs.files ∨ destination ∈ s2.fs.dirs then
    (⟨s2.fs, current_gid⟩, Except.ok ())
  else if ddir ∈ s2.fs.dirs ∧ abs_filename ∈ s2.fs.files then
    (⟨⟨destination :: s2.fs.files, s2.fs.dirs⟩, current_gid⟩, Except.ok ())
  else
    (s2, Except.error UpErr.copyError)

/-- Iterating my_upload over the source paths, hashing each file. -/
def uploadEach (opts : UploadOpts) (env : UploadEnv) (contentHash : Path → String)
    (repo_dir : Path) (reponame : String) : Sys → List Path → Sys × Except UpErr Unit
  | s, [] => (s, Except.ok ())
  | s, p :: rest =>
    match my_upload opts env s repo_dir reponame p (contentHash p) with
    | (s', Except.ok ()) => uploadEach opts env contentHash repo_dir reponame s' rest
    | (s', Except.error e) => (s', Except.error e)

/-- Modelled from the spec: the rpkg Commands.upload method (called at line 224
with replace set to true, its code is not part of this repository)
hashes each source path and hands it to lookasidecache.upload, which the
coordinator replaces with my_upload; the replace flag is accepted but
the existence check of the shim still short-circuits, so the flag is never
consulted by the shim. -/
def uploadSources (opts : UploadOpts) (env : UploadEnv) (contentHash : Path → String)
    (repo_dir : Path) (reponame : String) (s : Sys) (paths : List Path)
    (replace : Bool) : Sys × Except UpErr Unit :=
  uploadEach opts env contentHash repo_dir reponame s paths

/-- C8: the shim addresses its destination as lookaside_location /
reponame / basename / filehash / basename and copies only when that
destination does not already exist: if the destination existed
beforehand the stored file set is unchanged; after any successful
upload the destination exists, re-running the identical upload succeeds
and changes nothing (so exactly one stored copy remains), and the
replace flag accepted by the upload wrapper never influences the
outcome. -/
theorem my_upload_idempotent (opts : UploadOpts) (env : UploadEnv) (s s' : Sys)
    (rd : Path) (reponame : String) (abs : Path) (fh : String)
    (h : my_upload opts env s rd reponame abs fh = (s', Except.ok ())) :
    my_upload opts env s' rd reponame abs fh = (s', Except.ok ()) ∧
    ([opts.lookaside_location, reponame, basename abs, fh, basename abs] ∈ s'.fs.files ∨
      [opts.lookaside_location, reponame, basename abs, fh, basename abs] ∈ s'.fs.dirs) ∧
    (([opts.lookaside_location, reponame, basename abs, fh, basename abs] ∈ s.fs.files ∨
      [opts.lookaside_location, reponame, basename abs, fh, basename abs] ∈ s.fs.dirs) →
      s'.fs.files = s.fs.files) ∧
    (∀ r1 r2 : Bool, ∀ ch paths st,
      uploadSources opts env ch rd reponame st paths r1 =
        uploadSources opts env ch rd reponame st paths r2) := by
  classical
  simp only [my_upload] at h ⊢
  set dst : Path := [opts.lookaside_location, reponame, basename abs, fh, basename abs]
    with hdstdef
  set dd : Path := [opts.lookaside_location, reponame, basename abs, fh] with hdddef
  by_cases h1 : dd ∈ s.fs.dirs
  · simp only [h1, if_true] at h
    by_cases h2 : dst ∈ s.fs.files ∨ dst ∈ s.fs.dirs
    · simp only [h2, if_true] at h
      obtain ⟨rfl, -⟩ : (⟨s.fs, s.gid⟩ : Sys) = s' ∧ _ := Prod.ext_iff.mp h
      refine ⟨?_, h2, fun _ => rfl, fun _ _ _ _ _ => rfl⟩
      simp [h1, h2]
    · simp only [h2, if_false] at h
      by_cases h3 : abs ∈ s.fs.files
      · have h3' : dd ∈ s.fs.dirs ∧ abs ∈ s.fs.files := ⟨h1, h3⟩
        simp only [h3', if_true, h1, h3, and_self] at h
        obtain ⟨rfl, -⟩ : (⟨⟨dst :: s.fs.files, s.fs.dirs⟩, s.gid⟩ : Sys) = s' ∧ _ :=
          Prod.ext_iff.mp h
        refine ⟨?_, Or.inl (List.mem_cons_self _ _), fun hex => absurd hex h2,
          fun _ _ _ _ _ => rfl⟩
        simp [h1, List.mem_cons_self]
      · have h3' : ¬ (dd ∈ s.fs.dirs ∧ abs ∈ s.fs.files) := fun hc => h3 hc.2
        simp only [h3', if_false, h1, h3, and_false] at h
        exact absurd (Prod.ext_iff.mp h).2 (by simp)
  · simp only [h1, if_false] at h
    by_cases hmk : env.makedirsRaises dd = true
    · simp only [hmk, if_true] at h
      by_cases h2 : dst ∈ s.fs.files ∨ dst ∈ s.fs.dirs
      · simp only [h2, if_true] at h
        obtain ⟨rfl, -⟩ : (⟨s.fs, s.gid⟩ : Sys) = s' ∧ _ := Prod.ext_iff.mp h
        refine ⟨?_, h2, fun _ => rfl, fun _ _ _ _ _ => rfl⟩
        simp [h1, hmk, h2]
      · simp only [h2, if_false] at h
        have h3' : ¬ (dd ∈ s.fs.dirs ∧ abs ∈ s.fs.files) := fun hc => h1 hc.1
        simp only [h3', if_false, h1, false_and] at h
        exact absurd (Prod.ext_iff.mp h).2 (by simp)
    · simp only [hmk, Bool.false_eq_true, if_false] at h
      by_cases h2 : dst ∈ s.fs.files ∨ dst ∈ dd :: s.fs.dirs
      · simp only [h2, if_true] at h
        obtain ⟨rfl, -⟩ : (⟨⟨s.fs.files, dd :: s.fs.dirs⟩, s.gid⟩ : Sys) = s' ∧ _ :=
          Prod.ext_iff.mp h
        refine ⟨?_, h2, fun _ => rfl, fun _ _ _ _ _ => rfl⟩
        rcases h2 with h2 | h2
        · simp [h2, List.mem_cons_self]
        · rcases List.mem_cons.mp h2 with h2 | h2
          · simp [h2, List.mem_cons_self]
          · simp [h2, List.mem_cons_self]
      · simp only [h2, if_false] at h
        by_cases h3 : abs ∈ s.fs.files
        · have h3' : dd ∈ dd :: s.fs.dirs ∧ abs ∈ s.fs.files :=
            ⟨List.mem_cons_self _ _, h3⟩
          simp only [h3', if_true, List.mem_cons_self, h3, and_self] at h
          obtain ⟨rfl, -⟩ : (⟨⟨dst :: s.fs.files, dd :: s.fs.dirs⟩, s.gid⟩ : Sys) = s' ∧ _ :=
            Prod.ext_iff.mp h
          refine ⟨?_, Or.inl (List.mem_cons_self _ _), fun hex => ?_,
            fun _ _ _ _ _ => rfl⟩
          · simp [List.mem_cons_self]
          · exact absurd (hex.imp id (fun hdm => List.mem_cons_of_mem dd hdm)) h2
        · have h3' : ¬ (dd ∈ dd :: s.fs.dirs ∧ abs ∈ s.fs.files) := fun hc => h3 hc.2
          simp only [h3', if_false, h3, and_false] at h
          exact absurd (Prod.ext_iff.mp h).2 (by simp)

theorem my_upload_idempotent_witness :
    my_upload ⟨"lk"⟩ ⟨48, fun _ => false⟩
        ⟨⟨[["d", "a.tgz"],
           ["lk", "u/foo", "a.tgz", "h1", "a.tgz"]], []⟩, 1000⟩
        ["tmp"] "u/foo" ["d", "a.tgz"] "h1" =
      (⟨⟨[["d", "a.tgz"],
          ["lk", "u/foo", "a.tgz", "h1", "a.tgz"]],
         [["lk", "u/foo", "a.tgz", "h1"]]⟩, 1000⟩, Except.ok ()) ∧
    my_upload ⟨"lk"⟩ ⟨48, fun _ => false⟩
        (⟨⟨[["d", "a.tgz"],
            ["lk", "u/foo", "a.tgz", "h1", "a.tgz"]],
           [["lk", "u/foo", "a.tgz", "h1"]]⟩, 1000⟩)
        ["tmp"] "u/foo" ["d", "a.tgz"] "h1" =
      (⟨⟨[["d", "a.tgz"],
          ["lk", "u/foo", "a.tgz", "h1", "a.tgz"]],
         [["lk", "u/foo", "a.tgz", "h1"]]⟩, 1000⟩, Except.ok ()) := by
  have h0 : my_upload ⟨"lk"⟩ ⟨48, fun _ => false⟩
      ⟨⟨[["d", "a.tgz"],
         ["lk", "u/foo", "a.tgz", "h1", "a.tgz"]], []⟩, 1000⟩
      ["tmp"] "u/foo" ["d", "a.tgz"] "h1" =
      (⟨⟨[["d", "a.tgz"],
          ["lk", "u/foo", "a.tgz", "h1", "a.tgz"]],
         [["lk", "u/foo", "a.tgz", "h1"]]⟩, 1000⟩, Except.ok ()) := by rfl
  exact ⟨h0, (my_upload_idempotent ⟨"lk"⟩ ⟨48, fun _ => false⟩ _ _
    ["tmp"] "u/foo" ["d", "a.tgz"] "h1" h0).1⟩

/-! Repository provisioning: setup_git_repo (lines 105-134). -/

/-- One provisioning command: /usr/share/dist-git/setup_git_package with
a repo name, or /usr/share/dist-git/mkbranch with a branch and repo
name. -/
inductive ProvCmd where
  | setupGitPackage (reponame : String)
  | mkbranch (branch : String) (reponame : String)
deriving DecidableEq, Repr

/-- Captured result of one provisioning command: exit code and combined
output (subprocess.check_output with stderr folded into stdout). -/
structure CmdRes where
  exit : Nat
  output : String
deriving DecidableEq, Repr

/-- The per-branch loop of setup_git_repo (lines 124-134): run mkbranch
for each branch; exit 0 and exit 128 (already exists) both continue to
the next branch, any other exit raises PackageImportException carrying
the captured output and aborts the loop.  The command runner is
abstract: it threads a state of type s and returns the
command result. -/
def setupBranches {σ : Type} (run : σ → ProvCmd → σ × CmdRes) (reponame : String) :
    σ → List String → σ × Except String Unit
  | s, [] => (s, Except.ok ())
  | s, b :: rest =>
    let r := run s (ProvCmd.mkbranch b reponame)
    if r.2.exit = 0 then setupBranches run reponame r.1 rest
    else if r.2.exit = 128 then setupBranches run reponame r.1 rest
    else (r.1, Except.error r.2.output)

/-- Embedding of setup_git_repo (lines 105-134): run setup_git_package
for the repository, treating exit 128 as "package already exists" and
any other non-zero exit as a PackageImportException carrying the
captured output, then create each branch the same way. -/
def setup_git_repo {σ : Type} (run : σ → ProvCmd → σ × CmdRes) (s : σ)
    (reponame : String) (branches : List String) : σ × Except String Unit :=
  let r := run s (ProvCmd.setupGitPackage reponame)
  if r.2.exit = 0 then setupBranches run reponame r.1 branches
  else if r.2.exit = 128 then setupBranches run reponame r.1 branches
  else (r.1, Except.error r.2.output)

/-- Modelled from the spec: the setup_git_package and mkbranch scripts
are external collaborators whose code is not part of this repository;
per the spec they create the repository (respectively the branch) when
absent, and signal "already exists" with exit code 128. -/
structure ProvState where
  repos : List String
  repoBranches : List (String × String)
deriving DecidableEq, Repr

/-- Modelled from the spec: semantics of the two provisioning commands
over the remote-side repository/branch topology. -/
def provRun (s : ProvState) (c : ProvCmd) : ProvState × CmdRes :=
  match c with
  | ProvCmd.setupGitPackage r =>
    if r ∈ s.repos then (s, ⟨128, "already exists"⟩)
    else (⟨r :: s.repos, s.repoBranches⟩, ⟨0, ""⟩)
  | ProvCmd.mkbranch b r =>
    if (r, b) ∈ s.repoBranches then (s, ⟨128, "already exists"⟩)
    else (⟨s.repos, (r, b) :: s.repoBranches⟩, ⟨0, ""⟩)

theorem setupBranches_provRun_ok (rn : String) :
    ∀ (bs : List String) (ps : ProvState),
    ∃ ps2, setupBranches provRun rn ps bs = (ps2, Except.ok ()) ∧
      ps2.repos = ps.repos ∧
      (∀ p ∈ ps.repoBranches, p ∈ ps2.repoBranches) ∧
      (∀ b ∈ bs, (rn, b) ∈ ps2.repoBranches) := by
  intro bs
  induction bs with
  | nil => exact fun ps => ⟨ps, rfl, rfl, fun _ hp => hp, by simp⟩
  | cons b rest ih =>
    intro ps
    by_cases hb : (rn, b) ∈ ps.repoBranches
    · obtain ⟨ps2, heq, hr, hmono, hall⟩ := ih ps
      refine ⟨ps2, ?_, hr, hmono, ?_⟩
      · simp [setupBranches, provRun, hb, heq]
      · intro c hc
        rcases List.mem_cons.mp hc with rfl | hc
        · exact hmono _ hb
        · exact hall c hc
    · obtain ⟨ps2, heq, hr, hmono, hall⟩ := ih ⟨ps.repos, (rn, b) :: ps.repoBranches⟩
      refine ⟨ps2, ?_, hr, ?_, ?_⟩
      · simp [setupBranches, provRun, hb, heq]
      · exact fun p hp => hmono p (List.mem_cons_of_mem _ hp)
      · intro c hc
        rcases List.mem_cons.mp hc with rfl | hc
        · exact hmono _ (List.mem_cons_self _ _)
        · exact hall c hc

theorem setupBranches_provRun_stable (rn : String) :
    ∀ (bs : List String) (ps : ProvState), (∀ b ∈ bs, (rn, b) ∈ ps.repoBranches) →
    setupBranches provRun rn ps bs = (ps, Except.ok ()) := by
  intro bs
  induction bs with
  | nil => exact fun ps _ => rfl
  | cons b rest ih =>
    intro ps h
    have hb : (rn, b) ∈ ps.repoBranches := h b (List.mem_cons_self _ _)
    simp [setupBranches, provRun, hb,
      ih ps (fun c hc => h c (List.mem_cons_of_mem _ hc))]

theorem setup_git_repo_provRun_post (rn : String) (bs : List String) (ps : ProvState) :
    ∃ ps2, setup_git_repo provRun ps rn bs = (ps2, Except.ok ()) ∧
      rn ∈ ps2.repos ∧ ∀ b ∈ bs, (rn, b) ∈ ps2.repoBranches := by
  by_cases hr : rn ∈ ps.repos
  · obtain ⟨ps2, heq, hrepos, -, hall⟩ := setupBranches_provRun_ok rn bs ps
    exact ⟨ps2, by simp [setup_git_repo, provRun, hr, heq], hrepos ▸ hr, hall⟩
  · obtain ⟨ps2, heq, hrepos, -, hall⟩ :=
      setupBranches_provRun_ok rn bs ⟨rn :: ps.repos, ps.repoBranches⟩
    refine ⟨ps2, by simp [setup_git_repo, provRun, hr, heq], ?_, hall⟩
    rw [hrepos]
    exact List.mem_cons_self _ _

/-- C7: exit code 128 of the repository-creation command, and of each
branch-creation command independently, is treated as success (the
procedure moves on); any other non-zero exit makes setup_git_repo fail
with a PackageImportException carrying the captured output of the command;
and under the spec-modelled provisioning semantics (create when absent,
exit 128 when present) a second run of setup_git_repo with identical
arguments always succeeds and changes nothing. -/
theorem setup_git_repo_idempotent {σ : Type} (run : σ → ProvCmd → σ × CmdRes)
    (s : σ) (reponame : String) (branches : List String) :
    (∀ s2 out, run s (ProvCmd.setupGitPackage reponame) = (s2, ⟨128, out⟩) →
      setup_git_repo run s reponame branches = setupBranches run reponame s2 branches) ∧
    (∀ s2 e out, run s (ProvCmd.setupGitPackage reponame) = (s2, ⟨e, out⟩) →
      e ≠ 0 → e ≠ 128 →
      setup_git_repo run s reponame branches = (s2, Except.error out)) ∧
    (∀ s2 out b rest, run s (ProvCmd.mkbranch b reponame) = (s2, ⟨128, out⟩) →
      setupBranches run reponame s (b :: rest) = setupBranches run reponame s2 rest) ∧
    (∀ s2 e out b rest, run s (ProvCmd.mkbranch b reponame) = (s2, ⟨e, out⟩) →
      e ≠ 0 → e ≠ 128 →
      setupBranches run reponame s (b :: rest) = (s2, Except.error out)) ∧
    (∀ ps : ProvState,
      setup_git_repo provRun (setup_git_repo provRun ps reponame branches).1
          reponame branches =
        ((setup_git_repo provRun ps reponame branches).1, Except.ok ())) := by
  refine ⟨?_, ?_, ?_, ?_, ?_⟩
  · intro s2 out hrun
    simp [setup_git_repo, hrun]
  · intro s2 e out hrun he0 he128
    simp [setup_git_repo, hrun, he0, he128]
  · intro s2 out b rest hrun
    simp [setupBranches, hrun]
  · intro s2 e out b rest hrun he0 he128
    simp [setupBranches, hrun, he0, he128]
  · intro ps
    obtain ⟨ps2, heq, hrn, hall⟩ := setup_git_repo_provRun_post reponame branches ps
    rw [heq]
    simp only [setup_git_repo, provRun, hrn, if_true]
    exact setupBranches_provRun_stable reponame branches ps2 hall

theorem setup_git_repo_idempotent_witness :
    setup_git_repo (fun u c => (u, if c = ProvCmd.setupGitPackage "user1/foo"
        then (⟨128, "exists"⟩ : CmdRes) else ⟨1, "boom"⟩)) () "user1/foo" ["f40"] =
      setupBranches (fun u c => (u, if c = ProvCmd.setupGitPackage "user1/foo"
        then (⟨128, "exists"⟩ : CmdRes) else ⟨1, "boom"⟩)) "user1/foo" () ["f40"] ∧
    setup_git_repo provRun
        (setup_git_repo provRun ⟨[], []⟩ "user1/foo" ["f40", "f41"]).1
        "user1/foo" ["f40", "f41"] =
      ((setup_git_repo provRun ⟨[], []⟩ "user1/foo" ["f40", "f41"]).1,
        Except.ok ()) :=
  ⟨(setup_git_repo_idempotent (fun u c => (u, if c = ProvCmd.setupGitPackage "user1/foo"
      then (⟨128, "exists"⟩ : CmdRes) else ⟨1, "boom"⟩)) () "user1/foo" ["f40"]).1
      () "exists" (by rfl),
    (setup_git_repo_idempotent provRun (⟨[], []⟩ : ProvState) "user1/foo"
      ["f40", "f41"]).2.2.2.2 ⟨[], []⟩⟩

/-! The orchestration: import_package (lines 137-257). -/

/-- Modelled from the spec: helpers.get_pkg_info (the helpers module is
not part of this repository) extracts from the spec file the package
name — empty when it cannot be determined — and the envr summary
string. -/
structure PkgInfo where
  name : String
  envr : String
deriving DecidableEq, Repr

/-- The package content handed to import_package: spec-file path, extra
content paths (files or directories) and source artifact paths. -/
structure PackageContent where
  spec_path : Path
  extra_content : List Path
  source_paths : List Path
deriving DecidableEq, Repr

/-- Outcome of one fallible python call: normal return, raising
the pyrpkg rpkgError, or raising any other exception. -/
inductive StepRes where
  | ok
  | raisesRpkg
  | raisesOther
deriving DecidableEq, Repr

/-- Per-branch environment: whether commands.switch_branch raises,
whether each step of the first-branch staging block raises, how
commands.commit and commands.push behave, the git environment seen by
sync_branch on this branch, and the commit hash read by load_commit. -/
structure BranchEnv where
  switchRaises : Bool
  copySpecRaises : Bool
  copyExtraRaises : Path → Bool
  indexAddRaises : Bool
  uploadRaises : Bool
  commitRes : StepRes
  sync : SyncEnv
  pushRes : StepRes
  commithash : String

/-- Environment of import_package: lock acquisition outcome, package
metadata, provisioning command results, clone outcome and message,
which paths are regular files, and the per-branch environments. -/
structure ImportEnv where
  lockOk : Bool
  pkgInfo : PkgInfo
  provRunOracle : ProvCmd → CmdRes
  cloneOk : Bool
  cloneMsg : String
  isFile : Path → Bool
  branch : String → BranchEnv

/-- One observable action of import_package. -/
inductive ImpAct where
  | setupRepoCall (reponame : String)
  | mkdtemp
  | cloneCall (reponame : String)
  | gitConfigName
  | gitConfigEmail
  | switchBranch (branch : String)
  | copySpec (p : Path)
  | copyFileAct (p : Path)
  | copyTreeAct (p : Path)
  | indexAdd (names : List String)
  | uploadCall (paths : List Path) (replace : Bool)
  | commitCall (message : String)
  | syncCall (branch : String) (keys : List String) (message : String)
  | pushCall (branch : String)
  | loadCommit
  | rmtreeCall
  | refreshCall
deriving DecidableEq, Repr

/-- Exceptions leaving import_package: a PackageImportException with its
message, or an uncaught exception propagating out of the branch loop. -/
inductive ImpErr where
  | packageImportException (msg : String)
  | uncaught
deriving DecidableEq, Repr

/-- The branch-commit mapping: association list in insertion order. -/
abbrev Dict := List (String × String)

/-- Python dict assignment: update in place if the key exists, else
append, preserving insertion order. -/
def dictInsert (m : Dict) (k v : String) : Dict :=
  if m.any (fun p => p.1 == k) then
    m.map (fun p => if p.1 == k then (k, v) else p)
  else m ++ [(k, v)]

/-- Iteration order of the dict: the keys in insertion order. -/
def dictKeys (m : Dict) : List String := m.map Prod.fst

/-- The extra-content loop of the staging block (lines 214-219): files
are copied with shutil.copy, directories with shutil.copytree; a raise
aborts the block. -/
def copyExtras (env : ImportEnv) (be : BranchEnv) : List Path → List ImpAct × Bool
  | [] => ([], false)
  | p :: rest =>
    let act := if env.isFile p then ImpAct.copyFileAct p else ImpAct.copyTreeAct p
    if be.copyExtraRaises p then ([act], true)
    else
      let r := copyExtras env be rest
      (act :: r.1, r.2)

/-- The first-branch staging block (lines 208-231): copy the spec file,
copy each extra-content path, stage the basenames into the index,
upload every source path with replace semantics, then commit with the
composed message; commands.commit raising rpkgError is caught and
logged (nothing to commit), any other raise escapes to the enclosing
bare except.  Returns the actions performed and whether the block
raised. -/
def stageFirst (env : ImportEnv) (be : BranchEnv) (pc : PackageContent)
    (message : String) : List ImpAct × Bool :=
  if be.copySpecRaises then ([ImpAct.copySpec pc.spec_path], true)
  else
    let ce := copyExtras env be pc.extra_content
    if ce.2 then (ImpAct.copySpec pc.spec_path :: ce.1, true)
    else
      let names := basename pc.spec_path :: pc.extra_content.map basename
      let t1 := ImpAct.copySpec pc.spec_path :: ce.1 ++ [ImpAct.indexAdd names]
      if be.indexAddRaises then (t1, true)
      else
        let t2 := t1 ++ [ImpAct.uploadCall pc.source_paths true]
        if be.uploadRaises then (t2, true)
        else
          let t3 := t2 ++ [ImpAct.commitCall message]
          match be.commitRes with
          | StepRes.ok => (t3, false)
          | StepRes.raisesRpkg => (t3, false)
          | StepRes.raisesOther => (t3, true)

/-- Whether the sync_branch call for this branch raises. -/
def syncFails (be : BranchEnv) (b : String) (keys : List String)
    (message : String) : Bool :=
  match (sync_branch be.sync b keys message).2 with
  | Except.ok _ => false
  | Except.error _ => true

/-- One iteration of the branch loop (lines 203-246): switch to the
branch (a raise here propagates), run the staging block when
branch_commits is still empty or sync_branch otherwise (any raise in
that block is caught by the bare except and the branch is skipped),
push (rpkgError is caught and the branch skipped, any other exception
propagates), and on success record the commit hash. -/
def processOneBranch (env : ImportEnv) (pc : PackageContent) (message : String)
    (b : String) (m : Dict) : List ImpAct × Dict × Option ImpErr :=
  let be := env.branch b
  if be.switchRaises then ([ImpAct.switchBranch b], m, some ImpErr.uncaught)
  else
    let body : List ImpAct × Bool :=
      if m.isEmpty then stageFirst env be pc message
      else ([ImpAct.syncCall b (dictKeys m) message], syncFails be b (dictKeys m) message)
    if body.2 then (ImpAct.switchBranch b :: body.1, m, none)
    else
      let t1 := ImpAct.switchBranch b :: body.1 ++ [ImpAct.pushCall b]
      match be.pushRes with
      | StepRes.ok => (t1 ++ [ImpAct.loadCommit], dictInsert m b be.commithash, none)
      | StepRes.raisesRpkg => (t1, m, none)
      | StepRes.raisesOther => (t1, m, some ImpErr.uncaught)

/-- The branch loop, threading the branch-commit mapping and stopping
when an exception propagates. -/
def processBranches (env : ImportEnv) (pc : PackageContent) (message : String) :
    List String → Dict → List ImpAct × Dict × Option ImpErr
  | [], m => ([], m, none)
  | b :: rest, m =>
    let r := processOneBranch env pc message b m
    match r.2.2 with
    | some e => (r.1, r.2.1, some e)
    | none =>
      let r2 := processBranches env pc message rest r.2.1
      (r.1 ++ r2.1, r2.2.1, r2.2.2)

/-- The value returned by import_package on success. -/
structure ImportResult where
  pkg_info : PkgInfo
  branch_commits : Dict
  reponame : String
deriving DecidableEq, Repr

/-- Observable outcome of one import_package call: the action trace,
whether the global import lock is still held and the temporary clone
directory still exists when the call terminates, and the returned value
or escaped exception. -/
structure ImportOut where
  trace : List ImpAct
  lockHeld : Bool
  tmpExists : Bool
  result : Except ImpErr ImportResult
deriving Repr

/-- Embedding of import_package (lines 137-257): acquire the global
lock (timeout raises), read the package info (empty name raises),
provision repository and branches via setup_git_repo, make the
temporary directory, clone (failure raises), configure git identity,
run the branch loop, then — only on the path with no escaping
exception — remove the temporary directory, refresh the cgit listing
and release the lock.  The lock release and the rmtree have no
try/finally in the source, so every raising path leaves lockHeld (and,
after mkdtemp, tmpExists) true. -/
def import_package (env : ImportEnv) (ns : String) (branches : List String)
    (pc : PackageContent) : ImportOut :=
  if env.lockOk = false then
    { trace := [], lockHeld := false, tmpExists := false,
      result := Except.error (ImpErr.packageImportException
        "import_package: lock could not be acquired.") }
  else
    let pkg_info := env.pkgInfo
    if pkg_info.name = "" then
      { trace := [], lockHeld := true, tmpExists := false,
        result := Except.error (ImpErr.packageImportException
          "Could not determine package name.") }
    else
      let reponame := ns ++ "/" ++ pkg_info.name
      let su := setup_git_repo (fun _ c => ((), env.provRunOracle c)) () reponame branches
      match su.2 with
      | Except.error out =>
        { trace := [ImpAct.setupRepoCall reponame], lockHeld := true, tmpExists := false,
          result := Except.error (ImpErr.packageImportException out) }
      | Except.ok _ =>
        let t0 := [ImpAct.setupRepoCall reponame, ImpAct.mkdtemp, ImpAct.cloneCall reponame]
        if env.cloneOk = false then
          { trace := t0, lockHeld := true, tmpExists := true,
            result := Except.error (ImpErr.packageImportException env.cloneMsg) }
        else
          let t1 := t0 ++ [ImpAct.gitConfigName, ImpAct.gitConfigEmail]
          let message := "automatic import of " ++ pkg_info.envr
          let pb := processBranches env pc message branches []
          match pb.2.2 with
          | some e =>
            { trace := t1 ++ pb.1, lockHeld := true, tmpExists := true,
              result := Except.error e }
          | none =>
            { trace := t1 ++ pb.1 ++ [ImpAct.rmtreeCall, ImpAct.refreshCall],
              lockHeld := false, tmpExists := false,
              result := Except.ok
                { pkg_info := pkg_info, branch_commits := pb.2.1, reponame := reponame } }

/-- Whether the staging-or-sync body of the branch loop raises for
branch b given the current mapping m. -/
def bodyFails (env : ImportEnv) (pc : PackageContent) (message : String)
    (b : String) (m : Dict) : Bool :=
  if m.isEmpty then (stageFirst env (env.branch b) pc message).2
  else syncFails (env.branch b) b (dictKeys m) message

/-- Whether branch b is fully processed (checkout, body, push all
succeed) given the current mapping m. -/
def branchOk (env : ImportEnv) (pc : PackageContent) (message : String)
    (b : String) (m : Dict) : Bool :=
  !(env.branch b).switchRaises && !(bodyFails env pc message b m) &&
    ((env.branch b).pushRes == StepRes.ok)

/-- The mapping the branch loop is expected to build: each branch is
appended with its commit hash exactly when its processing succeeds in
context. -/
def expectedCommits (env : ImportEnv) (pc : PackageContent) (message : String) :
    List String → Dict → Dict
  | [], m => m
  | b :: rest, m =>
    if branchOk env pc message b m then
      expectedCommits env pc message rest (dictInsert m b (env.branch b).commithash)
    else expectedCommits env pc message rest m

theorem processOneBranch_no_prop (env : ImportEnv) (pc : PackageContent)
    (message : String) (b : String) (m : Dict)
    (hsw : (env.branch b).switchRaises = false)
    (hp : (env.branch b).pushRes ≠ StepRes.raisesOther) :
    (processOneBranch env pc message b m).2 =
      (if branchOk env pc message b m then dictInsert m b (env.branch b).commithash
        else m, none) := by
  by_cases hm : m.isEmpty
  · by_cases hbf : (stageFirst env (env.branch b) pc message).2
    · simp [processOneBranch, branchOk, bodyFails, hsw, hm, hbf]
    · cases hpr : (env.branch b).pushRes with
      | ok => simp [processOneBranch, branchOk, bodyFails, hsw, hm, hbf, hpr]
      | raisesRpkg => simp [processOneBranch, branchOk, bodyFails, hsw, hm, hbf, hpr]
      | raisesOther => exact absurd hpr hp
  · by_cases hbf : syncFails (env.branch b) b (dictKeys m) message
    · simp [processOneBranch, branchOk, bodyFails, hsw, hm, hbf]
    · cases hpr : (env.branch b).pushRes with
      | ok => simp [processOneBranch, branchOk, bodyFails, hsw, hm, hbf, hpr]
      | raisesRpkg => simp [processOneBranch, branchOk, bodyFails, hsw, hm, hbf, hpr]
      | raisesOther => exact absurd hpr hp

theorem processBranches_no_prop (env : ImportEnv) (pc : PackageContent)
    (message : String) :
    ∀ (bs : List String) (m : Dict),
    (∀ b ∈ bs, (env.branch b).switchRaises = false ∧
      (env.branch b).pushRes ≠ StepRes.raisesOther) →
    (processBranches env pc message bs m).2 =
      (expectedCommits env pc message bs m, none) := by
  intro bs
  induction bs with
  | nil => intro m _; rfl
  | cons b rest ih =>
    intro m h
    have hb := h b (List.mem_cons_self _ _)
    have h1 := processOneBranch_no_prop env pc message b m hb.1 hb.2
    have hco : ∀ c ∈ rest, (env.branch c).switchRaises = false ∧
        (env.branch c).pushRes ≠ StepRes.raisesOther :=
      fun c hc => h c (List.mem_cons_of_mem _ hc)
    by_cases hok : branchOk env pc message b m
    · simp only [hok, if_true] at h1
      simp [processBranches, h1, expectedCommits, hok,
        ih (dictInsert m b (env.branch b).commithash) hco]
    · simp only [hok, if_false] at h1
      simp [processBranches, h1, expectedCommits, hok, ih m hco]

theorem not_mem_dictKeys_insert (m : Dict) (k v b : String)
    (hb : b ∉ dictKeys m) (hne : b ≠ k) : b ∉ dictKeys (dictInsert m k v) := by
  intro hmem
  simp only [dictKeys] at hb
  simp only [dictInsert, dictKeys] at hmem
  by_cases hany : m.any (fun p => p.1 == k)
  · simp only [hany, if_true, List.map_map, List.mem_map, Function.comp] at hmem
    obtain ⟨p, hp, hpe⟩ := hmem
    by_cases hpk : (p.1 == k) = true
    · simp only [hpk, if_true] at hpe
      exact hne hpe.symm
    · simp only [hpk, Bool.false_eq_true, if_false] at hpe
      exact hb (List.mem_map.mpr ⟨p, hp, hpe⟩)
  · simp only [hany, Bool.false_eq_true, if_false, List.map_append, List.mem_append,
      List.map_cons, List.map_nil, List.mem_singleton] at hmem
    rcases hmem with hmem | hmem
    · exact hb hmem
    · exact hne hmem

theorem pushFail_not_mem (env : ImportEnv) (pc : PackageContent) (message : String)
    (b : String) (hb : (env.branch b).pushRes ≠ StepRes.ok) :
    ∀ (bs : List String) (m : Dict), b ∉ dictKeys m →
    b ∉ dictKeys (expectedCommits env pc message bs m) := by
  intro bs
  induction bs with
  | nil => intro m hm; exact hm
  | cons c rest ih =>
    intro m hm
    by_cases hok : branchOk env pc message c m
    · have hne : b ≠ c := by
        rintro rfl
        have := hok
        simp only [branchOk, Bool.and_eq_true, beq_iff_eq] at this
        exact hb this.2
      simp only [expectedCommits, hok, if_true]
      exact ih _ (not_mem_dictKeys_insert m c (env.branch c).commithash b hm hne)
    · simp only [expectedCommits, hok, if_false]
      exact ih _ hm

theorem mem_dictInsert (p : String × String) (m : Dict) (k v : String)
    (h : p ∈ dictInsert m k v) : p = (k, v) ∨ p ∈ m := by
  simp only [dictInsert] at h
  by_cases hany : m.any (fun q => q.1 == k)
  · simp only [hany, if_true, List.mem_map] at h
    obtain ⟨q, hq, hqe⟩ := h
    by_cases hqk : (q.1 == k) = true
    · simp only [hqk, if_true] at hqe
      exact Or.inl hqe.symm
    · simp only [hqk, Bool.false_eq_true, if_false] at hqe
      exact Or.inr (hqe ▸ hq)
  · simp only [hany, Bool.false_eq_true, if_false, List.mem_append,
      List.mem_singleton] at h
    rcases h with h | h
    · exact Or.inr h
    · exact Or.inl h

theorem expectedCommits_values (env : ImportEnv) (pc : PackageContent)
    (message : String) :
    ∀ (bs : List String) (m : Dict),
    (∀ p ∈ m, p.2 = (env.branch p.1).commithash) →
    ∀ p ∈ expectedCommits env pc message bs m, p.2 = (env.branch p.1).commithash := by
  intro bs
  induction bs with
  | nil => intro m hm; exact hm
  | cons c rest ih =>
    intro m hm
    by_cases hok : branchOk env pc message c m
    · simp only [expectedCommits, hok, if_true]
      refine ih _ ?_
      intro p hp
      rcases mem_dictInsert p m c (env.branch c).commithash hp with rfl | hp
      · rfl
      · exact hm p hp
    · simp only [expectedCommits, hok, if_false]
      exact ih _ hm

/-- C3: when the call-level steps succeed (lock, package name,
provisioning, clone) and no branch raises an uncaught exception at
checkout or push, import_package returns a result: a branch whose
staging/sync body raises, or whose push raises rpkgError, contributes
no entry to branch_commits and processing continues, while every branch
that succeeds in context is recorded with its commit hash, as
characterized by expectedCommits. -/
theorem import_package_skips_failed_branches (env : ImportEnv) (ns : String)
    (branches : List String) (pc : PackageContent)
    (hlock : env.lockOk = true)
    (hname : env.pkgInfo.name ≠ "")
    (hsetup : (setup_git_repo (fun _ c => ((), env.provRunOracle c)) ()
        (ns ++ "/" ++ env.pkgInfo.name) branches).2 = Except.ok ())
    (hclone : env.cloneOk = true)
    (hbr : ∀ b ∈ branches, (env.branch b).switchRaises = false ∧
      (env.branch b).pushRes ≠ StepRes.raisesOther) :
    ∃ r, (import_package env ns branches pc).result = Except.ok r ∧
      r.branch_commits =
        expectedCommits env pc ("automatic import of " ++ env.pkgInfo.envr) branches [] ∧
      (∀ b ∈ branches, (env.branch b).pushRes ≠ StepRes.ok →
        b ∉ dictKeys r.branch_commits) ∧
      (∀ p ∈ r.branch_commits, p.2 = (env.branch p.1).commithash) := by
  have hpb := processBranches_no_prop env pc
    ("automatic import of " ++ env.pkgInfo.envr) branches [] hbr
  refine ⟨⟨env.pkgInfo,
    expectedCommits env pc ("automatic import of " ++ env.pkgInfo.envr) branches [],
    ns ++ "/" ++ env.pkgInfo.name⟩, ?_, rfl, ?_, ?_⟩
  · simp [import_package, hlock, hname, hsetup, hclone, hpb]
  · intro b hbmem hbp
    exact pushFail_not_mem env pc _ b hbp branches [] (by simp [dictKeys])
  · exact expectedCommits_values env pc _ branches [] (by simp)

/-- A git environment for sync_branch in which every command succeeds. -/
def okSync : SyncEnv :=
  ⟨fun _ => 0, fun _ => 0, fun _ => 0, fun _ => "2015-01-01", 0, fun _ _ => 0⟩

/-- A branch environment in which every step succeeds. -/
def okBranch : BranchEnv :=
  ⟨false, false, fun _ => false, false, false, StepRes.ok, okSync, StepRes.ok, "c0ffee"⟩

/-- A fully healthy import environment. -/
def baseEnv : ImportEnv :=
  ⟨true, ⟨"foo", "foo-1.0-1"⟩, fun _ => ⟨0, ""⟩, true, "clone failed",
    fun _ => true, fun _ => okBranch⟩

/-- Concrete package content used by the concrete instances. -/
def pcSample : PackageContent :=
  ⟨["tmp", "foo.spec"], [["tmp", "extras"]], [["tmp", "foo-1.0.tar.gz"]]⟩

/-- Environment in which branch f41 fails its push with rpkgError. -/
def envSkip : ImportEnv :=
  { baseEnv with branch := fun b =>
      if b = "f41" then { okBranch with pushRes := StepRes.raisesRpkg } else okBranch }

theorem import_package_skips_failed_branches_witness :
    ∃ r, (import_package envSkip "user1" ["f40", "f41", "rawhide"] pcSample).result =
        Except.ok r ∧
      r.branch_commits = expectedCommits envSkip pcSample
        ("automatic import of " ++ envSkip.pkgInfo.envr) ["f40", "f41", "rawhide"] [] ∧
      (∀ b ∈ ["f40", "f41", "rawhide"], (envSkip.branch b).pushRes ≠ StepRes.ok →
        b ∉ dictKeys r.branch_commits) ∧
      (∀ p ∈ r.branch_commits, p.2 = (envSkip.branch p.1).commithash) :=
  import_package_skips_failed_branches envSkip "user1" ["f40", "f41", "rawhide"]
    pcSample rfl (by decide) rfl rfl (by decide)

/-- C4 fails on the code: the import lock acquired at line 149 is only
released at line 251, on the success path, with no try/finally; the
early-failure exits raise with the lock still held.  Shown for the
missing-package-name path (line 157) and for the clone-failure path
(line 191). -/
theorem import_package_lock_leaked (env : ImportEnv) (ns : String)
    (branches : List String) (pc : PackageContent) :
    (env.lockOk = true → env.pkgInfo.name = "" →
      (import_package env ns branches pc).result =
        Except.error (ImpErr.packageImportException "Could not determine package name.") ∧
      (import_package env ns branches pc).lockHeld = true) ∧
    (env.lockOk = true → env.pkgInfo.name ≠ "" →
      (setup_git_repo (fun _ c => ((), env.provRunOracle c)) ()
        (ns ++ "/" ++ env.pkgInfo.name) branches).2 = Except.ok () →
      env.cloneOk = false →
      (import_package env ns branches pc).result =
        Except.error (ImpErr.packageImportException env.cloneMsg) ∧
      (import_package env ns branches pc).lockHeld = true) := by
  constructor
  · intro hlock hname
    constructor <;> simp [import_package, hlock, hname]
  · intro hlock hname hsetup hclone
    constructor <;> simp [import_package, hlock, hname, hsetup, hclone]

theorem import_package_lock_leaked_witness :
    ({ baseEnv with pkgInfo := ⟨"", ""⟩ } : ImportEnv).lockOk = true ∧
    ({ baseEnv with pkgInfo := ⟨"", ""⟩ } : ImportEnv).pkgInfo.name = "" ∧
    ((import_package { baseEnv with pkgInfo := ⟨"", ""⟩ } "user1" ["f40"] pcSample).result =
        Except.error (ImpErr.packageImportException "Could not determine package name.") ∧
      (import_package { baseEnv with pkgInfo := ⟨"", ""⟩ } "user1" ["f40"]
        pcSample).lockHeld = true) :=
  ⟨rfl, rfl,
    (import_package_lock_leaked { baseEnv with pkgInfo := ⟨"", ""⟩ } "user1" ["f40"]
      pcSample).1 rfl rfl⟩

/-- C6 fails on the code: the temporary clone directory created by
mkdtemp at line 162 is removed only by the rmtree at line 249 on the
success path; when the clone fails, the raise at line 191 terminates
the call with the directory still present and no rmtree performed. -/
theorem import_package_tmpdir_leaked (env : ImportEnv) (ns : String)
    (branches : List String) (pc : PackageContent)
    (hlock : env.lockOk = true)
    (hname : env.pkgInfo.name ≠ "")
    (hsetup : (setup_git_repo (fun _ c => ((), env.provRunOracle c)) ()
        (ns ++ "/" ++ env.pkgInfo.name) branches).2 = Except.ok ())
    (hclone : env.cloneOk = false) :
    (import_package env ns branches pc).result =
      Except.error (ImpErr.packageImportException env.cloneMsg) ∧
    (import_package env ns branches pc).tmpExists = true ∧
    ImpAct.rmtreeCall ∉ (import_package env ns branches pc).trace := by
  refine ⟨?_, ?_, ?_⟩ <;> simp [import_package, hlock, hname, hsetup, hclone]

theorem import_package_tmpdir_leaked_witness :
    (import_package { baseEnv with cloneOk := false } "user1" ["f40"] pcSample).result =
      Except.error (ImpErr.packageImportException
        ({ baseEnv with cloneOk := false } : ImportEnv).cloneMsg) ∧
    (import_package { baseEnv with cloneOk := false } "user1" ["f40"]
      pcSample).tmpExists = true ∧
    ImpAct.rmtreeCall ∉
      (import_package { baseEnv with cloneOk := false } "user1" ["f40"] pcSample).trace :=
  import_package_tmpdir_leaked { baseEnv with cloneOk := false } "user1" ["f40"]
    pcSample rfl (by decide) rfl rfl

theorem copyExtras_ok (env : ImportEnv) (be : BranchEnv) :
    ∀ l : List Path, (∀ p ∈ l, be.copyExtraRaises p = false) →
    copyExtras env be l =
      (l.map (fun p => if env.isFile p then ImpAct.copyFileAct p else ImpAct.copyTreeAct p),
        false) := by
  intro l
  induction l with
  | nil => intro _; rfl
  | cons p rest ih =>
    intro h
    have hp := h p (List.mem_cons_self _ _)
    simp [copyExtras, hp, ih (fun q hq => h q (List.mem_cons_of_mem _ hq))]

theorem stageFirst_ok (env : ImportEnv) (be : BranchEnv) (pc : PackageContent)
    (message : String)
    (h1 : be.copySpecRaises = false)
    (h2 : ∀ p ∈ pc.extra_content, be.copyExtraRaises p = false)
    (h3 : be.indexAddRaises = false)
    (h4 : be.uploadRaises = false)
    (h5 : be.commitRes ≠ StepRes.raisesOther) :
    stageFirst env be pc message =
      (ImpAct.copySpec pc.spec_path ::
        pc.extra_content.map (fun p => if env.isFile p then ImpAct.copyFileAct p
          else ImpAct.copyTreeAct p)
        ++ [ImpAct.indexAdd (basename pc.spec_path :: pc.extra_content.map basename),
            ImpAct.uploadCall pc.source_paths true, ImpAct.commitCall message],
        false) := by
  have hce := copyExtras_ok env be pc.extra_content h2
  cases h5' : be.commitRes with
  | raisesOther => exact absurd h5' h5
  | ok => simp [stageFirst, h1, hce, h3, h4, h5']
  | raisesRpkg => simp [stageFirst, h1, hce, h3, h4, h5']

/-- C5: while branch_commits is still empty the branch is seeded by the
direct-staging block — copy the spec file, copy each extra-content path
(files with shutil.copy, directories with shutil.copytree), stage the
basenames into the index, upload every source artifact with replace
semantics and commit the composed message — while any branch processed
with a non-empty branch_commits performs, besides checkout and push,
nothing but the sync_branch call: no copy, index, upload or direct
commit action ever appears for it; and the whole import trace is
exactly the provisioning/clone/config prelude, the branch-loop trace,
and the cleanup suffix. -/
theorem import_package_seeding_policy (env : ImportEnv) (ns : String)
    (branches : List String) (pc : PackageContent) (message : String) :
    (∀ b (m : Dict), m.isEmpty = true →
      (env.branch b).switchRaises = false →
      (env.branch b).copySpecRaises = false →
      (∀ p ∈ pc.extra_content, (env.branch b).copyExtraRaises p = false) →
      (env.branch b).indexAddRaises = false →
      (env.branch b).uploadRaises = false →
      (env.branch b).commitRes ≠ StepRes.raisesOther →
      (processOneBranch env pc message b m).1 =
        ImpAct.switchBranch b :: ImpAct.copySpec pc.spec_path ::
          pc.extra_content.map (fun p => if env.isFile p then ImpAct.copyFileAct p
            else ImpAct.copyTreeAct p)
          ++ [ImpAct.indexAdd (basename pc.spec_path :: pc.extra_content.map basename),
              ImpAct.uploadCall pc.source_paths true, ImpAct.commitCall message,
              ImpAct.pushCall b]
          ++ (if (env.branch b).pushRes = StepRes.ok then [ImpAct.loadCommit] else [])) ∧
    (∀ b (m : Dict), m.isEmpty = false →
      ∀ a ∈ (processOneBranch env pc message b m).1,
        a = ImpAct.switchBranch b ∨ a = ImpAct.syncCall b (dictKeys m) message ∨
        a = ImpAct.pushCall b ∨ a = ImpAct.loadCommit) ∧
    (env.lockOk = true → env.pkgInfo.name ≠ "" →
      (setup_git_repo (fun _ c => ((), env.provRunOracle c)) ()
        (ns ++ "/" ++ env.pkgInfo.name) branches).2 = Except.ok () →
      env.cloneOk = true →
      (∀ b ∈ branches, (env.branch b).switchRaises = false ∧
        (env.branch b).pushRes ≠ StepRes.raisesOther) →
      (import_package env ns branches pc).trace =
        [ImpAct.setupRepoCall (ns ++ "/" ++ env.pkgInfo.name), ImpAct.mkdtemp,
          ImpAct.cloneCall (ns ++ "/" ++ env.pkgInfo.name), ImpAct.gitConfigName,
          ImpAct.gitConfigEmail]
        ++ (processBranches env pc ("automatic import of " ++ env.pkgInfo.envr)
            branches []).1
        ++ [ImpAct.rmtreeCall, ImpAct.refreshCall]) := by
  refine ⟨?_, ?_, ?_⟩
  · intro b m hm hsw hcs hcx hia hup hcr
    have hst := stageFirst_ok env (env.branch b) pc message hcs hcx hia hup hcr
    cases hpr : (env.branch b).pushRes with
    | ok => simp [processOneBranch, hsw, hm, hst, hpr]
    | raisesRpkg => simp [processOneBranch, hsw, hm, hst, hpr]
    | raisesOther => simp [processOneBranch, hsw, hm, hst, hpr]
  · intro b m hm a ha
    by_cases hsw : (env.branch b).switchRaises = true
    · simp [processOneBranch, hsw] at ha
      exact Or.inl ha
    · by_cases hsf : syncFails (env.branch b) b (dictKeys m) message = true
      · simp [processOneBranch, hsw, hm, hsf] at ha
        tauto
      · cases hpr : (env.branch b).pushRes <;>
          simp [processOneBranch, hsw, hm, hsf, hpr] at ha <;> tauto
  · intro hlock hname hsetup hclone hbr
    have hpb := processBranches_no_prop env pc
      ("automatic import of " ++ env.pkgInfo.envr) branches [] hbr
    simp [import_package, hlock, hname, hsetup, hclone, hpb]

theorem import_package_seeding_policy_witness :
    (processOneBranch baseEnv pcSample "automatic import of foo-1.0-1" "f40" []).1 =
      ImpAct.switchBranch "f40" :: ImpAct.copySpec pcSample.spec_path ::
        pcSample.extra_content.map (fun p => if baseEnv.isFile p then ImpAct.copyFileAct p
          else ImpAct.copyTreeAct p)
        ++ [ImpAct.indexAdd (basename pcSample.spec_path ::
              pcSample.extra_content.map basename),
            ImpAct.uploadCall pcSample.source_paths true,
            ImpAct.commitCall "automatic import of foo-1.0-1",
            ImpAct.pushCall "f40"]
        ++ (if (baseEnv.branch "f40").pushRes = StepRes.ok then [ImpAct.loadCommit]
            else []) :=
  (import_package_seeding_policy baseEnv "user1" ["f40"] pcSample
      "automatic import of foo-1.0-1").1 "f40" [] rfl rfl rfl (by decide) rfl rfl
      (by decide)

theorem switch_notin_stageFirst (env : ImportEnv) (be : BranchEnv)
    (pc : PackageContent) (message : String) (d : String) :
    ImpAct.switchBranch d ∉ (stageFirst env be pc message).1 := by
  have hce : ∀ l, ImpAct.switchBranch d ∉ (copyExtras env be l).1 := by
    intro l
    induction l with
    | nil => simp [copyExtras]
    | cons p rest ih =>
      by_cases hr : be.copyExtraRaises p <;> by_cases hf : env.isFile p <;>
        simp [copyExtras, hr, hf, ih]
  by_cases h1 : be.copySpecRaises
  · simp [stageFirst, h1]
  · by_cases h2 : (copyExtras env be pc.extra_content).2
    · simp [stageFirst, h1, h2, hce]
    · by_cases h3 : be.indexAddRaises
      · simp [stageFirst, h1, h2, h3, hce]
      · by_cases h4 : be.uploadRaises
        · simp [stageFirst, h1, h2, h3, h4, hce]
        · cases h5 : be.commitRes <;> simp [stageFirst, h1, h2, h3, h4, h5, hce]

theorem switchBranch_mem_processOneBranch (env : ImportEnv) (pc : PackageContent)
    (message c : String) (m : Dict) (d : String)
    (h : ImpAct.switchBranch d ∈ (processOneBranch env pc message c m).1) : d = c := by
  have hst := switch_notin_stageFirst env (env.branch c) pc message d
  by_cases hsw : (env.branch c).switchRaises = true
  · simp [processOneBranch, hsw] at h
    exact h
  · by_cases hm : m.isEmpty
    · by_cases hb2 : (stageFirst env (env.branch c) pc message).2
      · simp [processOneBranch, hsw, hm, hb2] at h
        rcases h with h | h
        · exact h
        · exact absurd h hst
      · cases hpr : (env.branch c).pushRes <;>
          · simp [processOneBranch, hsw, hm, hb2, hpr] at h
            rcases h with h | h
            · exact h
            · exact absurd h hst
    · by_cases hsf : syncFails (env.branch c) c (dictKeys m) message = true
      · simp [processOneBranch, hsw, hm, hsf] at h
        exact h
      · cases hpr : (env.branch c).pushRes <;>
          · simp [processOneBranch, hsw, hm, hsf, hpr] at h
            exact h

theorem switchBranch_mem_processBranches (env : ImportEnv) (pc : PackageContent)
    (message d : String) :
    ∀ (bs : List String) (m : Dict),
    ImpAct.switchBranch d ∈ (processBranches env pc message bs m).1 → d ∈ bs := by
  intro bs
  induction bs with
  | nil => intro m h; simp [processBranches] at h
  | cons c rest ih =>
    intro m h
    cases hro : (processOneBranch env pc message c m).2.2 with
    | some e =>
      simp only [processBranches, hro] at h
      exact List.mem_cons.mpr
        (Or.inl (switchBranch_mem_processOneBranch env pc message c m d h))
    | none =>
      simp only [processBranches, hro, List.mem_append] at h
      rcases h with h | h
      · exact List.mem_cons.mpr (Or.inl (switchBranch_mem_processOneBranch env pc message c m d h))
      · exact List.mem_cons.mpr (Or.inr (ih _ h))

theorem processOneBranch_propagates (env : ImportEnv) (pc : PackageContent)
    (message b : String) (m : Dict)
    (hsw : (env.branch b).switchRaises = false)
    (hbf : bodyFails env pc message b m = false)
    (hp : (env.branch b).pushRes = StepRes.raisesOther) :
    (processOneBranch env pc message b m).2 = (m, some ImpErr.uncaught) := by
  by_cases hm : m.isEmpty
  · have hbf' : (stageFirst env (env.branch b) pc message).2 = false := by
      simpa [bodyFails, hm] using hbf
    simp [processOneBranch, hsw, hm, hbf', hp]
  · have hbf' : syncFails (env.branch b) b (dictKeys m) message = false := by
      simpa [bodyFails, hm] using hbf
    simp [processOneBranch, hsw, hm, hbf', hp]

theorem processBranches_stops (env : ImportEnv) (pc : PackageContent)
    (message b : String) (bs2 : List String)
    (hbsw : (env.branch b).switchRaises = false)
    (hbpush : (env.branch b).pushRes = StepRes.raisesOther) :
    ∀ (bs1 : List String) (m : Dict),
    (∀ c ∈ bs1, (env.branch c).switchRaises = false ∧
      (env.branch c).pushRes ≠ StepRes.raisesOther) →
    bodyFails env pc message b (expectedCommits env pc message bs1 m) = false →
    processBranches env pc message (bs1 ++ b :: bs2) m =
      ((processBranches env pc message bs1 m).1 ++
        (processOneBranch env pc message b (expectedCommits env pc message bs1 m)).1,
        expectedCommits env pc message bs1 m, some ImpErr.uncaught) := by
  intro bs1
  induction bs1 with
  | nil =>
    intro m _ hbf
    have h2 := processOneBranch_propagates env pc message b m hbsw
      (by simpa [expectedCommits] using hbf) hbpush
    have h2a : (processOneBranch env pc message b m).2.1 = m := by rw [h2]
    have h2b : (processOneBranch env pc message b m).2.2 = some ImpErr.uncaught := by
      rw [h2]
    simp [processBranches, h2a, h2b, expectedCommits]
  | cons c rest ih =>
    intro m h hbf
    have hc := h c (List.mem_cons_self _ _)
    have h1 := processOneBranch_no_prop env pc message c m hc.1 hc.2
    have h1a : (processOneBranch env pc message c m).2.1 =
        (if branchOk env pc message c m then dictInsert m c (env.branch c).commithash
          else m) := by rw [h1]
    have h1b : (processOneBranch env pc message c m).2.2 = none := by rw [h1]
    have hco : ∀ e ∈ rest, (env.branch e).switchRaises = false ∧
        (env.branch e).pushRes ≠ StepRes.raisesOther :=
      fun e he => h e (List.mem_cons_of_mem _ he)
    by_cases hok : branchOk env pc message c m
    · have hbf' : bodyFails env pc message b
          (expectedCommits env pc message rest
            (dictInsert m c (env.branch c).commithash)) = false := by
        simpa [expectedCommits, hok] using hbf
      have := ih (dictInsert m c (env.branch c).commithash) hco hbf'
      simp [processBranches, h1b, h1a, hok, this, expectedCommits]
    · have hbf' : bodyFails env pc message b (expectedCommits env pc message rest m) =
          false := by
        simpa [expectedCommits, hok] using hbf
      have := ih m hco hbf'
      simp [processBranches, h1b, h1a, hok, this, expectedCommits]

/-- C10: in the per-branch push step only rpkgError is caught (and the
branch is skipped, the call still returning a result without an entry
for it); a push raising any other exception is not caught: it
propagates out of import_package, which then returns no result, and no
remaining branch is processed (no checkout of any later branch appears
in the trace). -/
theorem import_package_push_exception (env : ImportEnv) (ns : String)
    (pc : PackageContent) (bs1 : List String) (b : String) (bs2 : List String)
    (hlock : env.lockOk = true)
    (hname : env.pkgInfo.name ≠ "")
    (hsetup : (setup_git_repo (fun _ c => ((), env.provRunOracle c)) ()
        (ns ++ "/" ++ env.pkgInfo.name) (bs1 ++ b :: bs2)).2 = Except.ok ())
    (hclone : env.cloneOk = true)
    (h1 : ∀ c ∈ bs1, (env.branch c).switchRaises = false ∧
      (env.branch c).pushRes ≠ StepRes.raisesOther)
    (hbsw : (env.branch b).switchRaises = false)
    (hbbody : bodyFails env pc ("automatic import of " ++ env.pkgInfo.envr) b
      (expectedCommits env pc ("automatic import of " ++ env.pkgInfo.envr) bs1 []) = false)
    (hbpush : (env.branch b).pushRes = StepRes.raisesOther)
    (hnodup : (bs1 ++ b :: bs2).Nodup) :
    (import_package env ns (bs1 ++ b :: bs2) pc).result = Except.error ImpErr.uncaught ∧
    (∀ c ∈ bs2, ImpAct.switchBranch c ∉
      (import_package env ns (bs1 ++ b :: bs2) pc).trace) ∧
    (∀ env' : ImportEnv, env'.lockOk = true → env'.pkgInfo.name ≠ "" →
      (setup_git_repo (fun _ c => ((), env'.provRunOracle c)) ()
        (ns ++ "/" ++ env'.pkgInfo.name) (bs1 ++ b :: bs2)).2 = Except.ok () →
      env'.cloneOk = true →
      (∀ c ∈ bs1 ++ b :: bs2, (env'.branch c).switchRaises = false ∧
        (env'.branch c).pushRes ≠ StepRes.raisesOther) →
      (env'.branch b).pushRes = StepRes.raisesRpkg →
      ∃ r, (import_package env' ns (bs1 ++ b :: bs2) pc).result = Except.ok r ∧
        b ∉ dictKeys r.branch_commits) := by
  have hstop := processBranches_stops env pc
    ("automatic import of " ++ env.pkgInfo.envr) b bs2 hbsw hbpush bs1 [] h1 hbbody
  have hdisj := List.nodup_append.mp hnodup
  have hbnotin : b ∉ bs2 := by
    have := hdisj.2.1
    rw [List.nodup_cons] at this
    exact this.1
  refine ⟨?_, ?_, ?_⟩
  · simp [import_package, hlock, hname, hsetup, hclone, hstop]
  · intro c hc hmem
    have htr : (import_package env ns (bs1 ++ b :: bs2) pc).trace =
        [ImpAct.setupRepoCall (ns ++ "/" ++ env.pkgInfo.name), ImpAct.mkdtemp,
          ImpAct.cloneCall (ns ++ "/" ++ env.pkgInfo.name), ImpAct.gitConfigName,
          ImpAct.gitConfigEmail]
        ++ ((processBranches env pc ("automatic import of " ++ env.pkgInfo.envr) bs1 []).1 ++
          (processOneBranch env pc ("automatic import of " ++ env.pkgInfo.envr) b
            (expectedCommits env pc ("automatic import of " ++ env.pkgInfo.envr) bs1 [])).1) := by
      simp [import_package, hlock, hname, hsetup, hclone, hstop]
    rw [htr] at hmem
    simp only [List.mem_append] at hmem
    rcases hmem with hmem | hmem | hmem
    · simp at hmem
    · have := switchBranch_mem_processBranches env pc _ c bs1 [] hmem
      exact absurd hc (hdisj.2.2 this ∘ List.mem_cons_of_mem b)
    · have := switchBranch_mem_processOneBranch env pc _ b _ c hmem
      exact hbnotin (this ▸ hc)
  · intro env' hlock' hname' hsetup' hclone' hbr' hrpkg
    have hpb := processBranches_no_prop env' pc
      ("automatic import of " ++ env'.pkgInfo.envr) (bs1 ++ b :: bs2) [] hbr'
    refine ⟨⟨env'.pkgInfo,
      expectedCommits env' pc ("automatic import of " ++ env'.pkgInfo.envr)
        (bs1 ++ b :: bs2) [], ns ++ "/" ++ env'.pkgInfo.name⟩, ?_, ?_⟩
    · simp [import_package, hlock', hname', hsetup', hclone', hpb]
    · exact pushFail_not_mem env' pc _ b (by simp [hrpkg]) (bs1 ++ b :: bs2) []
        (by simp [dictKeys])

/-- Environment in which branch f41 raises a non-rpkgError exception
during push. -/
def envPushBoom : ImportEnv :=
  { baseEnv with branch := fun c =>
      if c = "f41" then { okBranch with pushRes := StepRes.raisesOther } else okBranch }

theorem import_package_push_exception_witness :
    (import_package envPushBoom "user1" (["f40"] ++ "f41" :: ["rawhide"]) pcSample).result =
      Except.error ImpErr.uncaught ∧
    (∀ c ∈ ["rawhide"], ImpAct.switchBranch c ∉
      (import_package envPushBoom "user1" (["f40"] ++ "f41" :: ["rawhide"]) pcSample).trace) ∧
    (∀ env' : ImportEnv, env'.lockOk = true → env'.pkgInfo.name ≠ "" →
      (setup_git_repo (fun _ c => ((), env'.provRunOracle c)) ()
        ("user1" ++ "/" ++ env'.pkgInfo.name) (["f40"] ++ "f41" :: ["rawhide"])).2 =
        Except.ok () →
      env'.cloneOk = true →
      (∀ c ∈ ["f40"] ++ "f41" :: ["rawhide"], (env'.branch c).switchRaises = false ∧
        (env'.branch c).pushRes ≠ StepRes.raisesOther) →
      (env'.branch "f41").pushRes = StepRes.raisesRpkg →
      ∃ r, (import_package env' "user1" (["f40"] ++ "f41" :: ["rawhide"]) pcSample).result =
          Except.ok r ∧
        "f41" ∉ dictKeys r.branch_commits) :=
  import_package_push_exception envPushBoom "user1" pcSample ["f40"] "f41" ["rawhide"]
    rfl (by decide) rfl rfl (by decide) (by decide) (by decide) (by decide) (by decide)

/-- C9 fails on the code: when shutil.copyfile raises (here because the
destination directory could not be created: os.makedirs raised OSError,
which is caught and logged, and the destination is absent), the
restoring os.setgid on line 58 is never executed, so the process is
left running with the apache group id instead of the original one. -/
theorem my_upload_gid_not_restored :
    my_upload ⟨"lk"⟩ ⟨48, fun _ => true⟩ ⟨⟨[["d", "a.tgz"]], []⟩, 1000⟩
        ["tmp"] "u/foo" ["d", "a.tgz"] "h1" =
      (⟨⟨[["d", "a.tgz"]], []⟩, 48⟩, Except.error UpErr.copyError) := by rfl
